import Mathlib

/-!
Verification of the session/navigation engine of the arabic-bible reader.

The definitions below are a shallow embedding of `App.tsx` (the tab session
manager, the chapter navigator `findAdjacentChapter`, and the handlers
`handleSearch`, `handleChapterNavigation`, `handleVerseSelection`,
`handleHistoryItemClick`, `handleTabClose`, `handleTabClick`) together with a
model of the search utility `searchBible` (whose source file is not part of
the excerpt; it is modelled from the specification).

Modelling conventions:
- JavaScript numbers used as chapter/verse indices are modelled as `Int`.
- JavaScript `undefined` is modelled as `Option.none`; an expression that
  would throw a `TypeError` (reading a property of `undefined`) is modelled
  by `Except.error ()`.
- React state setters queue updates that land after the event handler
  returns; every local read inside a handler sees the values of the render
  the handler was created in.  Each handler is therefore a pure function
  from the pre-event `AppState` to the post-event `AppState`; where a
  handler calls another handler created in the same render, the callee is
  passed the *pre-event* values it closed over (this matters for
  `handleHistoryItemClick`, which closes over the pre-click `searchMode`).
- An exception escaping an event handler aborts that handler; the React
  state committed so far is unchanged (no setter ran before the throwing
  expression in the code below), so the "run a handler" step function
  returns the unchanged state when the handler throws.
-/

/-- A verse of the corpus: `{ number, text }` in `bible.json`. -/
structure Verse where
  number : Int
  text : String
deriving DecidableEq, Repr

/-- A chapter of the corpus: `{ number, verses }` in `bible.json`. -/
structure Chapter where
  number : Int
  verses : List Verse
deriving DecidableEq, Repr

/-- A book of the corpus: `{ name, chapters }` in `bible.json`. -/
structure Book where
  name : String
  chapters : List Chapter
deriving DecidableEq, Repr

/-- A testament of the corpus: `{ name, books }` in `bible.json`. -/
structure Testament where
  name : String
  books : List Book
deriving DecidableEq, Repr

/-- A (testament, book, chapter) coordinate, the return shape of
`findAdjacentChapter`. -/
structure Coord where
  testament : String
  book : String
  chapter : Int
deriving DecidableEq, Repr

/-- The search mode of `SearchBar`: `'partial'` (substring) is `substr` and
`'exact'` (whole-token) is `exactWord`. -/
inductive SearchMode where
  | substr
  | exactWord
deriving DecidableEq, Repr

/-- The direction argument `'prev' | 'next'` of the navigation handlers. -/
inductive Dir where
  | prev
  | next
deriving DecidableEq, Repr

/-- Modelled from the spec: a search `Hit = {coordinate, verseNumber, text}`
returned by the Search Engine (`searchBible` lives in `utils/arabicUtils`,
which is not part of the source excerpt). -/
structure SearchResult where
  testament : String
  book : String
  chapter : Int
  verseNumber : Int
  text : String
deriving DecidableEq, Repr

/-- The tab kinds `'navigation' | 'search-input' | 'verse' |
'search-results'` of the `Tab` type. -/
inductive TabType where
  | navigation
  | searchInput
  | verse
  | searchResults
deriving DecidableEq, Repr

/-- The `content` object of a `Tab`.  JavaScript objects are duck-typed;
fields that a given tab kind does not populate are `undefined`, modelled as
`none` (and an absent result list as `[]`). -/
structure TabContent where
  testament : Option String := none
  book : Option String := none
  chapter : Option Int := none
  verses : List Verse := []
  highlightedVerse : Option Int := none
  searchQuery : Option String := none
  searchResults : List SearchResult := []
deriving DecidableEq, Repr

/-- A session tab (`Tab` in `types.ts`, as used by `App.tsx`). -/
structure Tab where
  id : String
  type : TabType
  title : String
  content : TabContent
  searchOptions : Option SearchMode := none
  isCollapsed : Bool := false
deriving DecidableEq, Repr

/-- The session state of `App`: the `useState` variables mutated by the
handlers under verification.  (Font settings and dark mode never interact
with the tab/session logic and are omitted.)  `history` models the
append-only log written through `saveToHistory`. -/
structure AppState where
  searchQuery : String
  searchMode : SearchMode
  selectedTestament : Option String
  selectedBook : Option String
  selectedChapter : Option Int
  tabs : List Tab
  activeTabId : String
  scrollPositions : List (String × Int)
  history : List Tab
deriving DecidableEq, Repr

/-- JavaScript `Array.prototype.findIndex` bundled with the found element:
`some (i, a)` when the first index whose element satisfies `p` is `i` (and
the element is `a`), `none` when `findIndex` returns `-1`. -/
def findWith (p : α → Bool) : List α → Option (Nat × α)
  | [] => none
  | x :: xs => if p x then some (0, x) else (findWith p xs).map (fun ia => (ia.1 + 1, ia.2))

/-- Resolution of a coordinate to its verse list, as written with optional
chaining in `handleVerseSelection` / `handleChapterNavigation`:
`bibleData.find(t => t.name === testament)?.books.find(...)?.chapters.find(...)?.verses || []`. -/
def lookupVerses (corpus : List Testament) (testament book : String) (chapter : Int) : List Verse :=
  match corpus.find? (fun t => t.name == testament) with
  | none => []
  | some t =>
    match t.books.find? (fun b => b.name == book) with
    | none => []
    | some b =>
      match b.chapters.find? (fun c => c.number == chapter) with
      | none => []
      | some c => c.verses

/-- `findAdjacentChapter` of `App.tsx`.  `Except.error ()` marks the control
paths on which the JavaScript code throws a `TypeError`: an unknown
testament name makes `bibleData[-1].books` throw; an unknown book name makes
`currentBook.chapters` throw in the `next` branch; an empty `books` array of
the previous/next testament makes `undefined.name` throw. -/
def findAdjacentChapter (corpus : List Testament) (testament book : String)
    (chapter : Int) (direction : Dir) : Except Unit (Option Coord) :=
  match findWith (fun t => t.name == testament) corpus with
  | none => Except.error ()
  | some (currentTestamentIndex, currentTestament) =>
    match direction with
    | Dir.next =>
      match findWith (fun b => b.name == book) currentTestament.books with
      | none => Except.error ()
      | some (currentBookIndex, currentBook) =>
        if chapter < (currentBook.chapters.length : Int) then
          Except.ok (some ⟨testament, book, chapter + 1⟩)
        else if (currentBookIndex : Int) < (currentTestament.books.length : Int) - 1 then
          match currentTestament.books.get? (currentBookIndex + 1) with
          | some nextBook => Except.ok (some ⟨testament, nextBook.name, 1⟩)
          | none => Except.error ()
        else if (currentTestamentIndex : Int) < (corpus.length : Int) - 1 then
          match corpus.get? (currentTestamentIndex + 1) with
          | some nextTestament =>
            match nextTestament.books.get? 0 with
            | some firstBook => Except.ok (some ⟨nextTestament.name, firstBook.name, 1⟩)
            | none => Except.error ()
          | none => Except.error ()
        else
          Except.ok none
    | Dir.prev =>
      if chapter > 1 then
        Except.ok (some ⟨testament, book, chapter - 1⟩)
      else
        -- shared tail: `currentBookIndex > 0` is false (index `0` or `-1`)
        let prevTestamentCase : Except Unit (Option Coord) :=
          if 0 < currentTestamentIndex then
            match corpus.get? (currentTestamentIndex - 1) with
            | some prevTestament =>
              match prevTestament.books.get? (prevTestament.books.length - 1) with
              | some lastBook =>
                Except.ok (some ⟨prevTestament.name, lastBook.name, (lastBook.chapters.length : Int)⟩)
              | none => Except.error ()
            | none => Except.error ()
          else
            Except.ok none
        match findWith (fun b => b.name == book) currentTestament.books with
        | some (currentBookIndex, _) =>
          if 0 < currentBookIndex then
            match currentTestament.books.get? (currentBookIndex - 1) with
            | some prevBook =>
              Except.ok (some ⟨testament, prevBook.name, (prevBook.chapters.length : Int)⟩)
            | none => Except.error ()
          else
            prevTestamentCase
        | none => prevTestamentCase

/-- Modelled from the spec: normalization folds optional Arabic diacritical
marks (tashkeel `U+064B`–`U+065F`, superscript alef `U+0670`, tatweel
`U+0640`) away and folds alef letter-variants to bare alef, so that
diacritic presence/absence does not affect matching. -/
def normalizeArabic (s : String) : String :=
  let isDiacritic : Char → Bool := fun c =>
    (0x64B ≤ c.toNat && c.toNat ≤ 0x65F) || c.toNat == 0x670 || c.toNat == 0x640
  let foldChar : Char → Char := fun c =>
    if c = 'أ' ∨ c = 'إ' ∨ c = 'آ' ∨ c = 'ٱ' then 'ا' else c
  ⟨(s.data.filter (fun c => !(isDiacritic c))).map foldChar⟩

/-- `as` begins with `needle` (character-list version of `startsWith`). -/
def startsWithChars : List Char → List Char → Bool
  | [], _ => true
  | _ :: _, [] => false
  | a :: as, b :: bs => a == b && startsWithChars as bs

/-- `needle` occurs as a contiguous run inside `hay`. -/
def hasSubChars (needle : List Char) : List Char → Bool
  | [] => startsWithChars needle []
  | b :: bs => startsWithChars needle (b :: bs) || hasSubChars needle bs

/-- Splitting a character list at spaces, accumulating the current (reversed)
token: the word-boundary tokenization used for whole-token matching. -/
def splitTokensAux (cur : List Char) : List Char → List (List Char)
  | [] => [cur.reverse]
  | c :: cs => if c = ' ' then cur.reverse :: splitTokensAux [] cs else splitTokensAux (c :: cur) cs

/-- The space-separated tokens of a string. -/
def tokensOf (s : String) : List String :=
  (splitTokensAux [] s.data).map (fun l => ⟨l⟩)

/-- Modelled from the spec: a verse matches the query in `partial` mode when
the normalized text contains the normalized query as a substring, and in
`exact` mode when the normalized query equals a whole space-separated token
of the normalized text. -/
def matchesQuery (mode : SearchMode) (query text : String) : Bool :=
  let nq := normalizeArabic query
  let nt := normalizeArabic text
  match mode with
  | SearchMode.substr => hasSubChars nq.data nt.data
  | SearchMode.exactWord => (tokensOf nt).any (fun w => w == nq)

/-- Modelled from the spec: `searchBible` (in `utils/arabicUtils`, not part
of the source excerpt) scans the corpus in canonical order
(testament → book → chapter → verse) and returns one hit per matching
verse. -/
def searchBible (query : String) (corpus : List Testament) (mode : SearchMode) :
    List SearchResult :=
  corpus.flatMap fun t =>
    t.books.flatMap fun b =>
      b.chapters.flatMap fun c =>
        (c.verses.filter (fun v => matchesQuery mode query v.text)).map fun v =>
          ⟨t.name, b.name, c.number, v.number, v.text⟩

/-- The id `` `verse-${testament}-${book}-${chapter}-${Date.now()}` `` of a
tab created by `handleVerseSelection`; `now` stands for `Date.now()`. -/
def verseTabId (testament book : String) (chapter now : Int) : String :=
  s!"verse-{testament}-{book}-{chapter}-{now}"

/-- The id `` `search-results-${Date.now()}` `` of a tab created by
`handleSearch`. -/
def searchTabId (now : Int) : String :=
  s!"search-results-{now}"

/-- The `verse` tab literal built inside `handleVerseSelection`.
`stateSearchQuery` is the `searchQuery` state variable the handler closed
over; JavaScript `highlightedVerse ? searchQuery : undefined` is truthiness,
so a present-but-zero highlighted verse also yields `undefined`. -/
def mkVerseTab (now : Int) (testament book : String) (chapter : Int)
    (highlightedVerse : Option Int) (verses : List Verse) (stateSearchQuery : String) : Tab :=
  { id := verseTabId testament book chapter now
    type := TabType.verse
    title := s!"{book} {chapter}"
    content :=
      { testament := some testament
        book := some book
        chapter := some chapter
        verses := verses
        highlightedVerse := highlightedVerse
        searchQuery :=
          match highlightedVerse with
          | some v => if v ≠ 0 then some stateSearchQuery else none
          | none => none }
    searchOptions := none
    isCollapsed := false }

/-- `handleVerseSelection` of `App.tsx` (the spec's `openVerseTab`): resolve
the coordinate; on an empty verse list do nothing; otherwise set
`isCollapsed: false` on every existing tab, append the new tab, activate it
and record it to history. -/
def handleVerseSelection (corpus : List Testament) (now : Int) (testament book : String)
    (chapter : Int) (highlightedVerse : Option Int) (s : AppState) : AppState :=
  let verses := lookupVerses corpus testament book chapter
  if verses.isEmpty then s
  else
    let verseTab := mkVerseTab now testament book chapter highlightedVerse verses s.searchQuery
    { s with
      tabs := (s.tabs.map (fun tab => { tab with isCollapsed := false })) ++ [verseTab]
      activeTabId := verseTab.id
      history := s.history ++ [verseTab] }

/-- The `search-results` tab literal built inside `handleSearch`; `mode` is
the `searchMode` value the handler closed over. -/
def mkSearchTab (corpus : List Testament) (now : Int) (mode : SearchMode) (query : String) : Tab :=
  { id := searchTabId now
    type := TabType.searchResults
    title := s!"نتائج: {query}"
    content :=
      { searchQuery := some query
        searchResults := searchBible query corpus mode }
    searchOptions := some mode
    isCollapsed := false }

/-- The body of `handleSearch` with the `searchMode` closure value made
explicit: `setSearchQuery(query)` runs before the empty-query guard; a
non-empty query appends one `search-results` tab, activates it and records
it to history. -/
def handleSearchCore (corpus : List Testament) (now : Int) (mode : SearchMode)
    (query : String) (s : AppState) : AppState :=
  let s1 := { s with searchQuery := query }
  if query = "" then s1
  else
    let searchTab := mkSearchTab corpus now mode query
    { s1 with
      tabs := s1.tabs ++ [searchTab]
      activeTabId := searchTab.id
      history := s1.history ++ [searchTab] }

/-- `handleSearch` of `App.tsx` (the spec's `openSearchResultsTab`): it
reads the `searchMode` state of the render it was created in. -/
def handleSearch (corpus : List Testament) (now : Int) (query : String) (s : AppState) : AppState :=
  handleSearchCore corpus now s.searchMode query s

/-- The in-place update applied to the active tab by
`handleChapterNavigation`: same id, kind, collapse flag and search options;
new title and a fresh verse-shaped `content`. -/
def navUpdateTab (adj : Coord) (verses : List Verse) (tab : Tab) : Tab :=
  { tab with
    title := s!"{adj.book} {adj.chapter}"
    content :=
      { testament := some adj.testament
        book := some adj.book
        chapter := some adj.chapter
        verses := verses
        highlightedVerse := none } }

/-- `handleChapterNavigation` of `App.tsx` (the spec's
`navigateActiveChapter`).  `Except.error` propagates a `TypeError` raised by
`findAdjacentChapter`; it is raised before any state update runs. -/
def handleChapterNavigation (corpus : List Testament) (testament book : String)
    (chapter : Int) (direction : Dir) (s : AppState) : Except Unit AppState :=
  match findAdjacentChapter corpus testament book chapter direction with
  | Except.error e => Except.error e
  | Except.ok none => Except.ok s
  | Except.ok (some adj) =>
    let verses := lookupVerses corpus adj.testament adj.book adj.chapter
    if verses.isEmpty then Except.ok s
    else
      Except.ok
        { s with
          tabs := s.tabs.map (fun tab =>
            if tab.id == s.activeTabId then navUpdateTab adj verses tab else tab)
          history := s.history ++
            ((s.tabs.filter (fun tab => tab.id == s.activeTabId)).map (navUpdateTab adj verses))
          selectedTestament := some adj.testament
          selectedBook := some adj.book
          selectedChapter := some adj.chapter }

/-- The state transition of one `handleChapterNavigation` event: a thrown
`TypeError` escapes the event handler before any React state setter has run,
leaving the committed state unchanged. -/
def navStep (corpus : List Testament) (testament book : String) (chapter : Int)
    (direction : Dir) (s : AppState) : AppState :=
  match handleChapterNavigation corpus testament book chapter direction s with
  | Except.ok s' => s'
  | Except.error _ => s

/-- `handleHistoryItemClick` of `App.tsx` (the spec's `replayHistoryEntry`).
For a `search-results` entry the code first queues
`setSearchMode(entry.searchOptions.searchMode)` and then calls
`handleSearch`, but `handleSearch` is the closure of the current render and
reads the *pre-click* `searchMode` (`s.searchMode`); the queued mode update
still lands in the final state. -/
def handleHistoryItemClick (corpus : List Testament) (now : Int) (entry : Tab)
    (s : AppState) : AppState :=
  match entry.type with
  | TabType.verse =>
    handleVerseSelection corpus now (entry.content.testament.getD "")
      (entry.content.book.getD "") (entry.content.chapter.getD 0)
      entry.content.highlightedVerse s
  | TabType.searchResults =>
    let s1 :=
      match entry.searchOptions with
      | some m => { s with searchMode := m }
      | none => s
    let q := entry.content.searchQuery.getD ""
    handleSearchCore corpus now s.searchMode q { s1 with searchQuery := q }
  | _ => s

/-- `handleTabClose` of `App.tsx` (the spec's `closeTab`): a found tab of a
permanent kind rejects the close; otherwise the tab is filtered out, the
active tab falls back to the last remaining tab when the closed tab was
active (and stays put when nothing remains, since `setActiveTabId` is only
called on a non-empty remainder), and the scroll entry is evicted. -/
def handleTabClose (tabId : String) (s : AppState) : AppState :=
  match s.tabs.find? (fun t => t.id == tabId) with
  | some t =>
    if t.type == TabType.navigation || t.type == TabType.searchInput then s
    else
      let remainingTabs := s.tabs.filter (fun tab => !(tab.id == tabId))
      { s with
        tabs := remainingTabs
        activeTabId :=
          if s.activeTabId == tabId then
            match remainingTabs.getLast? with
            | some last => last.id
            | none => s.activeTabId
          else s.activeTabId
        scrollPositions := s.scrollPositions.filter (fun p => !(p.1 == tabId)) }
  | none =>
    let remainingTabs := s.tabs.filter (fun tab => !(tab.id == tabId))
    { s with
      tabs := remainingTabs
      activeTabId :=
        if s.activeTabId == tabId then
          match remainingTabs.getLast? with
          | some last => last.id
          | none => s.activeTabId
        else s.activeTabId
      scrollPositions := s.scrollPositions.filter (fun p => !(p.1 == tabId)) }

/-- `handleTabClick` of `App.tsx` (the spec's `activateTab`). -/
def handleTabClick (tabId : String) (s : AppState) : AppState :=
  if s.activeTabId == tabId then s else { s with activeTabId := tabId }

/-- `handleScroll` of `App.tsx`: upsert of one scroll position. -/
def handleScroll (tabId : String) (position : Int) (s : AppState) : AppState :=
  { s with
    scrollPositions := (s.scrollPositions.filter (fun p => !(p.1 == tabId))) ++ [(tabId, position)] }

/-- The permanent navigation tab created on initialization. -/
def navigationTabDef : Tab :=
  { id := "navigation", type := TabType.navigation, title := "الكتب", content := {} }

/-- The permanent search-input tab created on initialization. -/
def searchInputTabDef : Tab :=
  { id := "search", type := TabType.searchInput, title := "البحث", content := {} }

/-- The default initial `verse` tab (used when the store has no last tab). -/
def mkInitialVerseTab (ft : Testament) (fb : Book) (fc : Chapter) : Tab :=
  { id := s!"verse-{ft.name}-{fb.name}-{fc.number}-initial"
    type := TabType.verse
    title := s!"{fb.name} {fc.number}"
    content :=
      { testament := some ft.name
        book := some fb.name
        chapter := some fc.number
        verses := fc.verses
        highlightedVerse := none } }

/-- The initialization effect of `App` (lines 35–85): `bibleData[0]`,
`.books[0]` and `.chapters[0]` are dereferenced unconditionally, so an empty
level throws; otherwise the two permanent tabs plus the last-opened (or
default first-chapter) tab are installed and the latter is activated.
`lastTab` models `getLastTab()` and `sp0` models `getScrollPositions()`. -/
def initState (corpus : List Testament) (lastTab : Option Tab)
    (sp0 : List (String × Int)) : Except Unit AppState :=
  match corpus with
  | [] => Except.error ()
  | ft :: _ =>
    match ft.books with
    | [] => Except.error ()
    | fb :: _ =>
      match fb.chapters with
      | [] => Except.error ()
      | fc :: _ =>
        let initialTab := lastTab.getD (mkInitialVerseTab ft fb fc)
        Except.ok
          { searchQuery := ""
            searchMode := SearchMode.substr
            selectedTestament := some ft.name
            selectedBook := some fb.name
            selectedChapter := some fc.number
            tabs := [navigationTabDef, searchInputTabDef, initialTab]
            activeTabId := initialTab.id
            scrollPositions := sp0
            history := [] }

/-! ### Concrete fixtures -/

/-- A one-testament test corpus: testament `"T"`, book `"B"`, chapters 1–2. -/
def corpusT : List Testament :=
  [⟨"T", [⟨"B", [⟨1, [⟨1, "alpha beta"⟩]⟩, ⟨2, [⟨1, "gamma"⟩]⟩]⟩]⟩]

/-- The spec's two-testament example corpus: Testament "A" with Book
"Genesis" (2 chapters), Testament "B" with Book "Exodus" (1 chapter). -/
def exampleCorpus : List Testament :=
  [⟨"A", [⟨"Genesis", [⟨1, [⟨1, "g one"⟩]⟩, ⟨2, [⟨1, "g two"⟩]⟩]⟩]⟩,
   ⟨"B", [⟨"Exodus", [⟨1, [⟨1, "e one"⟩]⟩]⟩]⟩]

/-- A minimal session state holding only the two permanent tabs. -/
def stBase : AppState :=
  { searchQuery := ""
    searchMode := SearchMode.substr
    selectedTestament := none
    selectedBook := none
    selectedChapter := none
    tabs := [navigationTabDef, searchInputTabDef]
    activeTabId := "search"
    scrollPositions := []
    history := [] }

/-- A pre-existing tab whose `isCollapsed` flag is `true`. -/
def collapsedTab : Tab :=
  { id := "x", type := TabType.verse, title := "x", content := {}, isCollapsed := true }

/-- A session whose only tab is a collapsed verse tab. -/
def stCollapsed : AppState := { stBase with tabs := [collapsedTab], activeTabId := "x" }

/-- A `search-results` tab used as a non-`verse` active tab. -/
def searchResultsTabX : Tab :=
  { id := "sr", type := TabType.searchResults, title := "r",
    content := { searchQuery := some "q" }, searchOptions := some SearchMode.substr }

/-- A session whose active tab is the `search-results` tab above. -/
def stActiveSearch : AppState := { stBase with tabs := [searchResultsTabX], activeTabId := "sr" }

/-- One recorded `handleChapterNavigation` invocation. -/
structure NavCall where
  testament : String
  book : String
  chapter : Int
  direction : Dir
deriving DecidableEq, Repr

/-- A finite sequence of chapter-navigation events, applied in order. -/
def runNavCalls (corpus : List Testament) (calls : List NavCall) (s : AppState) : AppState :=
  calls.foldl (fun st c => navStep corpus c.testament c.book c.chapter c.direction st) s

/-- Modelled from the spec: `replayHistoryEntry` for a `search-results`
entry is "equivalent to `openSearchResultsTab` with the stored query/mode",
i.e. `handleSearch` run on the session with its search mode set to the
entry's stored mode. -/
def specReplaySearchResults (corpus : List Testament) (now : Int) (entry : Tab)
    (s : AppState) : AppState :=
  let m := entry.searchOptions.getD s.searchMode
  handleSearch corpus now (entry.content.searchQuery.getD "") { s with searchMode := m }

/-- A corpus with a single verse "abc": query "ab" matches in `partial` mode
but is not a whole token, so it does not match in `exact` mode. -/
def corpusAbc : List Testament := [⟨"T", [⟨"B", [⟨1, [⟨1, "abc"⟩]⟩]⟩]⟩]

/-- A persisted `search-results` history entry with query "ab" and stored
mode `exact`, clicked while the session mode is `partial`. -/
def storedSearchEntry : Tab :=
  { id := "search-results-1", type := TabType.searchResults, title := "نتائج: ab",
    content := { searchQuery := some "ab", searchResults := [] },
    searchOptions := some SearchMode.exactWord }

/-- The session invariant maintained by the tab manager: the active id names
a present tab, tab ids are duplicate-free (ids embed a creation timestamp),
and a permanent tab is always present. -/
def SessionInv (s : AppState) : Prop :=
  s.activeTabId ∈ s.tabs.map Tab.id ∧
  (s.tabs.map Tab.id).Nodup ∧
  ∃ t ∈ s.tabs, t.type = TabType.navigation ∨ t.type = TabType.searchInput

/-- One user-triggered operation of the session engine.  The freshness
hypotheses on tab-creating steps encode the spec's id-uniqueness assumption
(ids are "derived from type + coordinate + creation timestamp …
monotonic-enough to avoid collision"); the membership hypothesis on `click`
records that a tab click originates on a rendered, hence present, tab. -/
inductive Step (corpus : List Testament) : AppState → AppState → Prop
  | verseSel (now : Int) (testament book : String) (chapter : Int) (hv : Option Int)
      (s : AppState) (hfresh : verseTabId testament book chapter now ∉ s.tabs.map Tab.id) :
      Step corpus s (handleVerseSelection corpus now testament book chapter hv s)
  | search (now : Int) (query : String) (s : AppState)
      (hfresh : searchTabId now ∉ s.tabs.map Tab.id) :
      Step corpus s (handleSearch corpus now query s)
  | nav (testament book : String) (chapter : Int) (dir : Dir) (s : AppState) :
      Step corpus s (navStep corpus testament book chapter dir s)
  | close (tabId : String) (s : AppState) : Step corpus s (handleTabClose tabId s)
  | click (tabId : String) (s : AppState) (hmem : tabId ∈ s.tabs.map Tab.id) :
      Step corpus s (handleTabClick tabId s)
  | scroll (tabId : String) (pos : Int) (s : AppState) :
      Step corpus s (handleScroll tabId pos s)
  | setQuery (query : String) (s : AppState) :
      Step corpus s { s with searchQuery := query }
  | setMode (mode : SearchMode) (s : AppState) :
      Step corpus s { s with searchMode := mode }
  | histClick (now : Int) (entry : Tab) (s : AppState)
      (hfreshV : verseTabId (entry.content.testament.getD "") (entry.content.book.getD "")
        (entry.content.chapter.getD 0) now ∉ s.tabs.map Tab.id)
      (hfreshS : searchTabId now ∉ s.tabs.map Tab.id) :
      Step corpus s (handleHistoryItemClick corpus now entry s)

/-- Session states reachable from initialization by engine operations.  The
`hnd` hypothesis on `init` encodes the id-uniqueness of a restored
last-opened tab relative to the two permanent ids. -/
inductive Reachable (corpus : List Testament) : AppState → Prop
  | init (lastTab : Option Tab) (sp0 : List (String × Int)) (s : AppState)
      (h : initState corpus lastTab sp0 = Except.ok s)
      (hnd : (s.tabs.map Tab.id).Nodup) : Reachable corpus s
  | step (s s' : AppState) (h : Reachable corpus s) (hs : Step corpus s s') :
      Reachable corpus s'

/-- The initial verse tab created when initializing on `corpusT`. -/
def initTabT : Tab :=
  mkInitialVerseTab ⟨"T", [⟨"B", [⟨1, [⟨1, "alpha beta"⟩]⟩, ⟨2, [⟨1, "gamma"⟩]⟩]⟩]⟩
    ⟨"B", [⟨1, [⟨1, "alpha beta"⟩]⟩, ⟨2, [⟨1, "gamma"⟩]⟩]⟩ ⟨1, [⟨1, "alpha beta"⟩]⟩

/-- The session state after initializing on `corpusT` with an empty store. -/
def sInitT : AppState :=
  { searchQuery := ""
    searchMode := SearchMode.substr
    selectedTestament := some "T"
    selectedBook := some "B"
    selectedChapter := some 1
    tabs := [navigationTabDef, searchInputTabDef, initTabT]
    activeTabId := initTabT.id
    scrollPositions := []
    history := [] }

/-! ### Helper lemmas about `findWith` (JavaScript `findIndex`) -/

theorem findWith_eq_none {p : α → Bool} {l : List α} :
    findWith p l = none ↔ ∀ a ∈ l, p a = false := by
  induction l with
  | nil => simp [findWith]
  | cons x xs ih =>
    simp only [findWith]
    by_cases hx : p x = true
    · simp [hx]
    · simp only [Bool.not_eq_true] at hx
      simp [hx, Option.map_eq_none', ih]

theorem findWith_cons_pos {p : α → Bool} {x : α} {xs : List α} (h : p x = true) :
    findWith p (x :: xs) = some (0, x) := by
  simp [findWith, h]

theorem findWith_cons_neg {p : α → Bool} {x : α} {xs : List α} (h : p x = false) :
    findWith p (x :: xs) = (findWith p xs).map (fun ia => (ia.1 + 1, ia.2)) := by
  simp [findWith, h]

theorem findWith_some {p : α → Bool} {l : List α} {i : Nat} {a : α}
    (h : findWith p l = some (i, a)) :
    l.get? i = some a ∧ p a = true ∧ ∀ j b, j < i → l.get? j = some b → p b = false := by
  induction l generalizing i with
  | nil => simp [findWith] at h
  | cons x xs ih =>
    by_cases hx : p x = true
    · rw [findWith_cons_pos hx] at h
      obtain ⟨hi, ha⟩ : i = 0 ∧ a = x := by
        simpa using h.symm
      subst hi; subst ha
      refine ⟨rfl, hx, ?_⟩
      intro j b hj
      omega
    · simp only [Bool.not_eq_true] at hx
      rw [findWith_cons_neg hx] at h
      rw [Option.map_eq_some'] at h
      obtain ⟨⟨j, b⟩, hjb, heq⟩ := h
      obtain ⟨hij, hab⟩ : j + 1 = i ∧ b = a := by
        simpa using heq
      subst hab
      obtain ⟨h1, h2, h3⟩ := ih hjb
      refine ⟨by simpa [← hij] using h1, h2, ?_⟩
      intro k c hk hget
      match k with
      | 0 =>
        simp only [List.get?] at hget
        cases hget
        exact hx
      | k + 1 =>
        simp only [List.get?] at hget
        exact h3 k c (by omega) hget

theorem findWith_intro {p : α → Bool} {l : List α} {i : Nat} {a : α}
    (hget : l.get? i = some a) (hp : p a = true)
    (hfirst : ∀ j b, j < i → l.get? j = some b → p b = false) :
    findWith p l = some (i, a) := by
  induction l generalizing i with
  | nil => simp at hget
  | cons x xs ih =>
    match i with
    | 0 =>
      simp only [List.get?] at hget
      cases hget
      exact findWith_cons_pos hp
    | i + 1 =>
      simp only [List.get?] at hget
      have hx : p x = false := hfirst 0 x (by omega) rfl
      rw [findWith_cons_neg hx]
      rw [ih hget (fun j b hj hg => hfirst (j + 1) b (by omega) (by simpa using hg))]
      rfl

theorem findWith_bound {p : α → Bool} {l : List α} {i : Nat} {a : α}
    (h : findWith p l = some (i, a)) : i < l.length := by
  have := (findWith_some h).1
  rw [List.get?_eq_some] at this
  exact this.choose

/-! ### C10: `handleSearch` only appends and activates -/

/-- C10: for every session state and non-empty query, `handleSearch` leaves
every pre-existing tab entirely unchanged (same id, title, payload and
collapsed flag — it does not touch the others' collapse state), and its only
tab-list changes are appending exactly one new `search-results` tab at the
end and making it active. -/
theorem search_appends_only (corpus : List Testament) (now : Int) (query : String)
    (s : AppState) (h : query ≠ "") :
    (handleSearch corpus now query s).tabs =
      s.tabs ++ [mkSearchTab corpus now s.searchMode query] ∧
    (mkSearchTab corpus now s.searchMode query).type = TabType.searchResults ∧
    (handleSearch corpus now query s).activeTabId =
      (mkSearchTab corpus now s.searchMode query).id := by
  simp [handleSearch, handleSearchCore, mkSearchTab, if_neg h]

/-- Witness for C10 at a concrete state and query. -/
theorem search_appends_only_witness :
    (handleSearch corpusT 5 "alpha" stBase).tabs =
      stBase.tabs ++ [mkSearchTab corpusT 5 SearchMode.substr "alpha"] ∧
    (mkSearchTab corpusT 5 SearchMode.substr "alpha").type = TabType.searchResults ∧
    (handleSearch corpusT 5 "alpha" stBase).activeTabId =
      (mkSearchTab corpusT 5 SearchMode.substr "alpha").id :=
  search_appends_only corpusT 5 "alpha" stBase (by decide)

/-! ### C1: `handleVerseSelection` expands (not collapses) the other tabs -/

/-- C1 counterexample: after `handleVerseSelection` on a state with one
collapsed pre-existing tab, it is not the case that every non-active tab has
`isCollapsed = true`; the code sets the flag to `false` on every other
tab. -/
theorem verseSelection_collapse_counterexample :
    ¬ (∀ tab ∈ (handleVerseSelection corpusT 9 "T" "B" 1 none stCollapsed).tabs,
        tab.id ≠ (handleVerseSelection corpusT 9 "T" "B" 1 none stCollapsed).activeTabId →
        tab.isCollapsed = true) := by
  decide

/-- C1 amended: for every session state and coordinate resolving to a
non-empty verse list, `handleVerseSelection` creates a new `verse` tab, sets
`isCollapsed := false` on every other tab (expanding them, rather than
collapsing), appends the new tab, and makes it active. -/
theorem verseSelection_expands_appends_activates (corpus : List Testament) (now : Int)
    (testament book : String) (chapter : Int) (hv : Option Int) (s : AppState)
    (h : lookupVerses corpus testament book chapter ≠ []) :
    (handleVerseSelection corpus now testament book chapter hv s).tabs =
      (s.tabs.map (fun tab => { tab with isCollapsed := false })) ++
        [mkVerseTab now testament book chapter hv
          (lookupVerses corpus testament book chapter) s.searchQuery] ∧
    (mkVerseTab now testament book chapter hv
      (lookupVerses corpus testament book chapter) s.searchQuery).type = TabType.verse ∧
    (handleVerseSelection corpus now testament book chapter hv s).activeTabId =
      (mkVerseTab now testament book chapter hv
        (lookupVerses corpus testament book chapter) s.searchQuery).id := by
  have hne : (lookupVerses corpus testament book chapter).isEmpty = false := by
    rw [← Bool.not_eq_true, List.isEmpty_iff]
    exact h
  simp [handleVerseSelection, mkVerseTab, hne]

/-- Witness for the amended C1 at a concrete state and coordinate. -/
theorem verseSelection_expands_appends_activates_witness :
    (handleVerseSelection corpusT 9 "T" "B" 1 none stCollapsed).tabs =
      (stCollapsed.tabs.map (fun tab => { tab with isCollapsed := false })) ++
        [mkVerseTab 9 "T" "B" 1 none (lookupVerses corpusT "T" "B" 1) stCollapsed.searchQuery] ∧
    (mkVerseTab 9 "T" "B" 1 none (lookupVerses corpusT "T" "B" 1)
      stCollapsed.searchQuery).type = TabType.verse ∧
    (handleVerseSelection corpusT 9 "T" "B" 1 none stCollapsed).activeTabId =
      (mkVerseTab 9 "T" "B" 1 none (lookupVerses corpusT "T" "B" 1) stCollapsed.searchQuery).id :=
  verseSelection_expands_appends_activates corpusT 9 "T" "B" 1 none stCollapsed (by decide)

/-! ### C9: navigation never creates or removes tabs -/

theorem navStep_preserves_ids_types_active (corpus : List Testament) (testament book : String)
    (chapter : Int) (dir : Dir) (s : AppState) :
    (navStep corpus testament book chapter dir s).tabs.map (fun tab => (tab.id, tab.type)) =
      s.tabs.map (fun tab => (tab.id, tab.type)) ∧
    (navStep corpus testament book chapter dir s).activeTabId = s.activeTabId := by
  unfold navStep handleChapterNavigation
  cases hfind : findAdjacentChapter corpus testament book chapter dir with
  | error e => exact ⟨rfl, rfl⟩
  | ok o =>
    cases o with
    | none => exact ⟨rfl, rfl⟩
    | some adj =>
      by_cases hv : (lookupVerses corpus adj.testament adj.book adj.chapter).isEmpty = true
      · simp [hv]
      · simp only [hv, Bool.false_eq_true, if_false]
        refine ⟨?_, trivial⟩
        rw [List.map_map]
        apply List.map_congr_left
        intro tab _
        by_cases hid : tab.id = s.activeTabId
        · simp [hid, navUpdateTab]
        · simp [hid]

/-- C9: for every session state and every finite sequence of
`handleChapterNavigation` calls, the tab count and the ordered list of tab
ids (and the active tab id) are unchanged: navigation updates in place and
never creates or removes a tab. -/
theorem navigation_sequence_preserves_tabs (corpus : List Testament) (calls : List NavCall)
    (s : AppState) :
    (runNavCalls corpus calls s).tabs.map Tab.id = s.tabs.map Tab.id ∧
    (runNavCalls corpus calls s).tabs.length = s.tabs.length ∧
    (runNavCalls corpus calls s).activeTabId = s.activeTabId := by
  induction calls generalizing s with
  | nil => exact ⟨rfl, rfl, rfl⟩
  | cons c cs ih =>
    have hstep := navStep_preserves_ids_types_active corpus c.testament c.book c.chapter
      c.direction s
    have hid : (navStep corpus c.testament c.book c.chapter c.direction s).tabs.map Tab.id =
        s.tabs.map Tab.id := by
      have h2 := congrArg (List.map Prod.fst) hstep.1
      simpa [List.map_map, Function.comp] using h2
    have hlen : (navStep corpus c.testament c.book c.chapter c.direction s).tabs.length =
        s.tabs.length := by
      have h3 := congrArg List.length hid
      simpa using h3
    obtain ⟨h1, h2, h3⟩ := ih (navStep corpus c.testament c.book c.chapter c.direction s)
    simp only [runNavCalls, List.foldl_cons] at h1 h2 h3 ⊢
    exact ⟨h1.trans hid, h2.trans hlen, h3.trans hstep.2⟩

/-! ### C3: navigation does not check the active tab's kind -/

/-- C3 counterexample: with a `search-results` tab active and a coordinate
whose next chapter exists and has verses, `handleChapterNavigation` is not a
no-op — it rewrites the active non-`verse` tab's title and content. -/
theorem navigate_nonverse_counterexample :
    (navStep corpusT "T" "B" 1 Dir.next stActiveSearch).tabs ≠ stActiveSearch.tabs := by
  decide

/-- C3 amended: `handleChapterNavigation` never inspects the active tab's
kind.  It is a no-op exactly when the adjacent-chapter computation raises,
returns none, or resolves to an empty verse list; otherwise it rewrites the
tab whose id equals `activeTabId` — whatever its kind — in place, always
preserving every tab's id and kind. -/
theorem navigate_ignores_active_kind (corpus : List Testament) (testament book : String)
    (chapter : Int) (dir : Dir) (s : AppState) :
    (findAdjacentChapter corpus testament book chapter dir = Except.error () →
      navStep corpus testament book chapter dir s = s) ∧
    (findAdjacentChapter corpus testament book chapter dir = Except.ok none →
      navStep corpus testament book chapter dir s = s) ∧
    (∀ adj, findAdjacentChapter corpus testament book chapter dir = Except.ok (some adj) →
      lookupVerses corpus adj.testament adj.book adj.chapter = [] →
      navStep corpus testament book chapter dir s = s) ∧
    (navStep corpus testament book chapter dir s).tabs.map (fun tab => (tab.id, tab.type)) =
      s.tabs.map (fun tab => (tab.id, tab.type)) ∧
    (∀ adj, findAdjacentChapter corpus testament book chapter dir = Except.ok (some adj) →
      lookupVerses corpus adj.testament adj.book adj.chapter ≠ [] →
      (navStep corpus testament book chapter dir s).tabs = s.tabs.map (fun tab =>
        if tab.id == s.activeTabId
        then navUpdateTab adj (lookupVerses corpus adj.testament adj.book adj.chapter) tab
        else tab)) := by
  refine ⟨?_, ?_, ?_, (navStep_preserves_ids_types_active corpus testament book chapter dir s).1,
    ?_⟩
  · intro herr
    unfold navStep handleChapterNavigation
    rw [herr]
  · intro hnone
    unfold navStep handleChapterNavigation
    rw [hnone]
  · intro adj hadj hemp
    unfold navStep handleChapterNavigation
    rw [hadj]
    simp only [hemp, List.isEmpty_nil, if_true]
  · intro adj hadj hne
    have hnee : (lookupVerses corpus adj.testament adj.book adj.chapter).isEmpty = false := by
      rw [← Bool.not_eq_true, List.isEmpty_iff]
      exact hne
    unfold navStep handleChapterNavigation
    rw [hadj]
    simp only [hnee, Bool.false_eq_true, if_false]

/-- Witness for the amended C3: at the end of the one-testament corpus the
navigation is a no-op even though the active tab is a `search-results`
tab. -/
theorem navigate_ignores_active_kind_witness :
    navStep corpusT "T" "B" 2 Dir.next stActiveSearch = stActiveSearch :=
  (navigate_ignores_active_kind corpusT "T" "B" 2 Dir.next stActiveSearch).2.1 (by rfl)

/-! ### C8: closing a permanent tab is rejected -/

/-- C8: `handleTabClose` applied to the id of a tab of kind `navigation` or
`search-input` leaves the whole state, in particular the tab list,
unchanged. -/
theorem closeTab_permanent_noop (s : AppState) (tabId : String) (t : Tab)
    (hfind : s.tabs.find? (fun x => x.id == tabId) = some t)
    (hperm : t.type = TabType.navigation ∨ t.type = TabType.searchInput) :
    handleTabClose tabId s = s := by
  unfold handleTabClose
  rw [hfind]
  have hcond : (t.type == TabType.navigation || t.type == TabType.searchInput) = true := by
    cases hperm with
    | inl h => rw [h]; rfl
    | inr h => rw [h]; rfl
  dsimp only
  rw [if_pos hcond]

/-- Witness for C8: closing the permanent navigation tab of a concrete state
changes nothing. -/
theorem closeTab_permanent_noop_witness : handleTabClose "navigation" stBase = stBase :=
  closeTab_permanent_noop stBase "navigation" navigationTabDef (by decide) (Or.inl rfl)

/-! ### C2: history replay of a search entry runs under the wrong mode -/

/-- C2 evaluated at the failing input: the replayed search tab records (and
ran under) the pre-click session mode `partial` — a hit on "abc" — whereas
`openSearchResultsTab` with the entry's stored mode `exact` finds nothing;
the two resulting session states differ (the queued `setSearchMode` still
lands, so the session mode itself does become `exact` in both). -/
theorem historyReplay_stale_mode :
    handleHistoryItemClick corpusAbc 7 storedSearchEntry stBase ≠
      specReplaySearchResults corpusAbc 7 storedSearchEntry stBase ∧
    (handleHistoryItemClick corpusAbc 7 storedSearchEntry stBase).tabs.map Tab.searchOptions =
      stBase.tabs.map Tab.searchOptions ++ [some SearchMode.substr] ∧
    (specReplaySearchResults corpusAbc 7 storedSearchEntry stBase).tabs.map Tab.searchOptions =
      stBase.tabs.map Tab.searchOptions ++ [some SearchMode.exactWord] ∧
    (handleHistoryItemClick corpusAbc 7 storedSearchEntry stBase).searchMode =
      SearchMode.exactWord := by
  refine ⟨by decide, by decide, by decide, by decide⟩

/-! ### C4: `findAdjacentChapter` raises on unknown names -/

/-- C4 counterexample: with a testament name that does not occur in the
corpus, `findAdjacentChapter` does not return a coordinate-or-none — the
JavaScript code throws a `TypeError` (`bibleData[-1]` is `undefined`, then
`.books` is dereferenced). -/
theorem adjacentChapter_unknown_testament_raises :
    findAdjacentChapter exampleCorpus "Zzz" "Genesis" 1 Dir.next = Except.error () := by
  rfl

/-- C4 amended: when the coordinate's testament name occurs in the corpus,
its book name occurs in that testament, and every testament has at least one
book, `findAdjacentChapter` terminates normally and returns a coordinate or
none; with an unknown testament name (or an unknown book name in the `next`
direction) it raises instead. -/
theorem adjacentChapter_total_on_known_names (corpus : List Testament)
    (testament book : String) (chapter : Int) (direction : Dir)
    (ti bi : Nat) (tst : Testament) (bk : Book)
    (hti : findWith (fun x => x.name == testament) corpus = some (ti, tst))
    (hbi : findWith (fun x => x.name == book) tst.books = some (bi, bk))
    (hbooks : ∀ T ∈ corpus, T.books ≠ []) :
    ∃ r, findAdjacentChapter corpus testament book chapter direction = Except.ok r := by
  have hbiLt : bi < tst.books.length := findWith_bound hbi
  have htiLt : ti < corpus.length := findWith_bound hti
  unfold findAdjacentChapter
  rw [hti]
  cases direction with
  | next =>
    dsimp only
    rw [hbi]
    dsimp only
    by_cases h1 : chapter < (bk.chapters.length : Int)
    · exact ⟨_, by rw [if_pos h1]⟩
    · rw [if_neg h1]
      by_cases h2 : (bi : Int) < (tst.books.length : Int) - 1
      · rw [if_pos h2]
        obtain ⟨a, ha⟩ : ∃ a, tst.books.get? (bi + 1) = some a :=
          ⟨_, List.get?_eq_get (by omega)⟩
        rw [ha]
        exact ⟨_, rfl⟩
      · rw [if_neg h2]
        by_cases h3 : (ti : Int) < (corpus.length : Int) - 1
        · rw [if_pos h3]
          obtain ⟨nt, hnt⟩ : ∃ nt, corpus.get? (ti + 1) = some nt :=
            ⟨_, List.get?_eq_get (by omega)⟩
          rw [hnt]
          dsimp only
          have hntmem : nt ∈ corpus := by
            obtain ⟨hlt, hget⟩ := List.get?_eq_some.mp hnt
            exact hget ▸ List.get_mem corpus (ti + 1) hlt
          have hne : nt.books ≠ [] := hbooks nt hntmem
          obtain ⟨fb, hfb⟩ : ∃ fb, nt.books.get? 0 = some fb :=
            ⟨_, List.get?_eq_get (by have := List.length_pos.mpr hne; omega)⟩
          rw [hfb]
          exact ⟨_, rfl⟩
        · rw [if_neg h3]
          exact ⟨_, rfl⟩
  | prev =>
    dsimp only
    by_cases h1 : chapter > 1
    · exact ⟨_, by rw [if_pos h1]⟩
    · rw [if_neg h1]
      rw [hbi]
      dsimp only
      by_cases h2 : 0 < bi
      · rw [if_pos h2]
        obtain ⟨pb, hpb⟩ : ∃ pb, tst.books.get? (bi - 1) = some pb :=
          ⟨_, List.get?_eq_get (by omega)⟩
        rw [hpb]
        exact ⟨_, rfl⟩
      · rw [if_neg h2]
        by_cases h3 : 0 < ti
        · rw [if_pos h3]
          obtain ⟨pt, hpt⟩ : ∃ pt, corpus.get? (ti - 1) = some pt :=
            ⟨_, List.get?_eq_get (by omega)⟩
          rw [hpt]
          dsimp only
          have hptmem : pt ∈ corpus := by
            obtain ⟨hlt, hget⟩ := List.get?_eq_some.mp hpt
            exact hget ▸ List.get_mem corpus (ti - 1) hlt
          have hne : pt.books ≠ [] := hbooks pt hptmem
          obtain ⟨lb, hlb⟩ : ∃ lb, pt.books.get? (pt.books.length - 1) = some lb :=
            ⟨_, List.get?_eq_get (by have := List.length_pos.mpr hne; omega)⟩
          rw [hlb]
          exact ⟨_, rfl⟩
        · rw [if_neg h3]
          exact ⟨_, rfl⟩

/-- Witness for the amended C4 at a concrete known coordinate. -/
theorem adjacentChapter_total_on_known_names_witness :
    ∃ r, findAdjacentChapter exampleCorpus "A" "Genesis" 1 Dir.next = Except.ok r :=
  adjacentChapter_total_on_known_names exampleCorpus "A" "Genesis" 1 Dir.next 0 0
    ⟨"A", [⟨"Genesis", [⟨1, [⟨1, "g one"⟩]⟩, ⟨2, [⟨1, "g two"⟩]⟩]⟩]⟩
    ⟨"Genesis", [⟨1, [⟨1, "g one"⟩]⟩, ⟨2, [⟨1, "g two"⟩]⟩]⟩
    (by rfl) (by rfl) (by decide)

/-! ### Branch computations of `findAdjacentChapter` (shared helpers) -/

theorem adjacentNext_inBook {corpus : List Testament} {testament book : String} {ch : Int}
    {ti bi : Nat} {tst : Testament} {bk : Book}
    (hti : findWith (fun x => x.name == testament) corpus = some (ti, tst))
    (hbi : findWith (fun x => x.name == book) tst.books = some (bi, bk))
    (h1 : ch < (bk.chapters.length : Int)) :
    findAdjacentChapter corpus testament book ch Dir.next =
      Except.ok (some ⟨testament, book, ch + 1⟩) := by
  unfold findAdjacentChapter
  rw [hti]
  dsimp only
  rw [hbi]
  dsimp only
  rw [if_pos h1]

theorem adjacentNext_nextBook {corpus : List Testament} {testament book : String} {ch : Int}
    {ti bi : Nat} {tst : Testament} {bk nb : Book}
    (hti : findWith (fun x => x.name == testament) corpus = some (ti, tst))
    (hbi : findWith (fun x => x.name == book) tst.books = some (bi, bk))
    (h1 : ¬ ch < (bk.chapters.length : Int))
    (hnb : tst.books.get? (bi + 1) = some nb) :
    findAdjacentChapter corpus testament book ch Dir.next =
      Except.ok (some ⟨testament, nb.name, 1⟩) := by
  have hlt : bi + 1 < tst.books.length := (List.get?_eq_some.mp hnb).choose
  unfold findAdjacentChapter
  rw [hti]
  dsimp only
  rw [hbi]
  dsimp only
  rw [if_neg h1, if_pos (by push_cast; omega), hnb]

theorem adjacentNext_nextTestament {corpus : List Testament} {testament book : String} {ch : Int}
    {ti bi : Nat} {tst nt : Testament} {bk fb : Book}
    (hti : findWith (fun x => x.name == testament) corpus = some (ti, tst))
    (hbi : findWith (fun x => x.name == book) tst.books = some (bi, bk))
    (h1 : ¬ ch < (bk.chapters.length : Int))
    (h2 : ¬ bi + 1 < tst.books.length)
    (hnt : corpus.get? (ti + 1) = some nt)
    (hfb : nt.books.get? 0 = some fb) :
    findAdjacentChapter corpus testament book ch Dir.next =
      Except.ok (some ⟨nt.name, fb.name, 1⟩) := by
  have hbiLt : bi < tst.books.length := findWith_bound hbi
  have hntLt : ti + 1 < corpus.length := (List.get?_eq_some.mp hnt).choose
  unfold findAdjacentChapter
  rw [hti]
  dsimp only
  rw [hbi]
  dsimp only
  rw [if_neg h1, if_neg (by push_cast; omega), if_pos (by push_cast; omega), hnt]
  dsimp only
  rw [hfb]

theorem adjacentNext_atEnd {corpus : List Testament} {testament book : String} {ch : Int}
    {ti bi : Nat} {tst : Testament} {bk : Book}
    (hti : findWith (fun x => x.name == testament) corpus = some (ti, tst))
    (hbi : findWith (fun x => x.name == book) tst.books = some (bi, bk))
    (h1 : ¬ ch < (bk.chapters.length : Int))
    (h2 : ¬ bi + 1 < tst.books.length)
    (h3 : ¬ ti + 1 < corpus.length) :
    findAdjacentChapter corpus testament book ch Dir.next = Except.ok none := by
  have hbiLt : bi < tst.books.length := findWith_bound hbi
  have htiLt : ti < corpus.length := findWith_bound hti
  unfold findAdjacentChapter
  rw [hti]
  dsimp only
  rw [hbi]
  dsimp only
  rw [if_neg h1, if_neg (by push_cast; omega), if_neg (by push_cast; omega)]

theorem adjacentPrev_inChapter {corpus : List Testament} {testament book : String} {ch : Int}
    {ti : Nat} {tst : Testament}
    (hti : findWith (fun x => x.name == testament) corpus = some (ti, tst))
    (h1 : ch > 1) :
    findAdjacentChapter corpus testament book ch Dir.prev =
      Except.ok (some ⟨testament, book, ch - 1⟩) := by
  unfold findAdjacentChapter
  rw [hti]
  dsimp only
  rw [if_pos h1]

theorem adjacentPrev_prevBook {corpus : List Testament} {testament book : String} {ch : Int}
    {ti bi : Nat} {tst : Testament} {bk pb : Book}
    (hti : findWith (fun x => x.name == testament) corpus = some (ti, tst))
    (hbi : findWith (fun x => x.name == book) tst.books = some (bi, bk))
    (h1 : ¬ ch > 1) (h2 : 0 < bi)
    (hpb : tst.books.get? (bi - 1) = some pb) :
    findAdjacentChapter corpus testament book ch Dir.prev =
      Except.ok (some ⟨testament, pb.name, (pb.chapters.length : Int)⟩) := by
  unfold findAdjacentChapter
  rw [hti]
  dsimp only
  rw [if_neg h1, hbi]
  dsimp only
  rw [if_pos h2, hpb]

theorem adjacentPrev_prevTestament {corpus : List Testament} {testament book : String} {ch : Int}
    {ti : Nat} {tst pt : Testament} {bk lb : Book}
    (hti : findWith (fun x => x.name == testament) corpus = some (ti, tst))
    (hbi : findWith (fun x => x.name == book) tst.books = some (0, bk))
    (h1 : ¬ ch > 1) (h3 : 0 < ti)
    (hpt : corpus.get? (ti - 1) = some pt)
    (hlb : pt.books.get? (pt.books.length - 1) = some lb) :
    findAdjacentChapter corpus testament book ch Dir.prev =
      Except.ok (some ⟨pt.name, lb.name, (lb.chapters.length : Int)⟩) := by
  unfold findAdjacentChapter
  rw [hti]
  dsimp only
  rw [if_neg h1, hbi]
  dsimp only
  rw [if_neg (by omega), if_pos h3, hpt]
  dsimp only
  rw [hlb]

theorem adjacentPrev_atStart {corpus : List Testament} {testament book : String} {ch : Int}
    {tst : Testament} {bk : Book}
    (hti : findWith (fun x => x.name == testament) corpus = some (0, tst))
    (hbi : findWith (fun x => x.name == book) tst.books = some (0, bk))
    (h1 : ¬ ch > 1) :
    findAdjacentChapter corpus testament book ch Dir.prev = Except.ok none := by
  unfold findAdjacentChapter
  rw [hti]
  dsimp only
  rw [if_neg h1, hbi]
  dsimp only
  rw [if_neg (by omega), if_neg (by omega)]

/-! ### C5: the adjacent-chapter algorithm -/

/-- C5: for every valid coordinate in a corpus (testament and book names
resolve, chapter within the book's chapter count), `next` yields chapter+1
within the book, else chapter 1 of the following book in the testament,
else chapter 1 of the first book of the following testament, else none at
the very last chapter; `prev` is symmetric through last chapters and yields
none at the very first chapter; and the spec's two-testament example
evaluates as stated (no wraparound). -/
theorem adjacentChapter_cases (corpus : List Testament) (testament book : String)
    (ch : Int) (ti bi : Nat) (tst : Testament) (bk : Book)
    (hti : findWith (fun x => x.name == testament) corpus = some (ti, tst))
    (hbi : findWith (fun x => x.name == book) tst.books = some (bi, bk))
    (hch1 : 1 ≤ ch) (hch2 : ch ≤ (bk.chapters.length : Int)) :
    (ch < (bk.chapters.length : Int) →
      findAdjacentChapter corpus testament book ch Dir.next =
        Except.ok (some ⟨testament, book, ch + 1⟩)) ∧
    (ch = (bk.chapters.length : Int) →
      ∀ nb, tst.books.get? (bi + 1) = some nb →
      findAdjacentChapter corpus testament book ch Dir.next =
        Except.ok (some ⟨testament, nb.name, 1⟩)) ∧
    (ch = (bk.chapters.length : Int) → bi + 1 = tst.books.length →
      ∀ nt fb, corpus.get? (ti + 1) = some nt → nt.books.get? 0 = some fb →
      findAdjacentChapter corpus testament book ch Dir.next =
        Except.ok (some ⟨nt.name, fb.name, 1⟩)) ∧
    (ch = (bk.chapters.length : Int) → bi + 1 = tst.books.length → ti + 1 = corpus.length →
      findAdjacentChapter corpus testament book ch Dir.next = Except.ok none) ∧
    (1 < ch →
      findAdjacentChapter corpus testament book ch Dir.prev =
        Except.ok (some ⟨testament, book, ch - 1⟩)) ∧
    (ch = 1 → 0 < bi → ∀ pb, tst.books.get? (bi - 1) = some pb →
      findAdjacentChapter corpus testament book ch Dir.prev =
        Except.ok (some ⟨testament, pb.name, (pb.chapters.length : Int)⟩)) ∧
    (ch = 1 → bi = 0 → 0 < ti → ∀ pt lb, corpus.get? (ti - 1) = some pt →
      pt.books.get? (pt.books.length - 1) = some lb →
      findAdjacentChapter corpus testament book ch Dir.prev =
        Except.ok (some ⟨pt.name, lb.name, (lb.chapters.length : Int)⟩)) ∧
    (ch = 1 → bi = 0 → ti = 0 →
      findAdjacentChapter corpus testament book ch Dir.prev = Except.ok none) ∧
    findAdjacentChapter exampleCorpus "A" "Genesis" 2 Dir.next =
      Except.ok (some ⟨"B", "Exodus", 1⟩) ∧
    findAdjacentChapter exampleCorpus "B" "Exodus" 1 Dir.prev =
      Except.ok (some ⟨"A", "Genesis", 2⟩) := by
  have hbiLt : bi < tst.books.length := findWith_bound hbi
  have htiLt : ti < corpus.length := findWith_bound hti
  refine ⟨?_, ?_, ?_, ?_, ?_, ?_, ?_, ?_, by rfl, by rfl⟩
  · exact fun h1 => adjacentNext_inBook hti hbi h1
  · exact fun hcheq nb hnb => adjacentNext_nextBook hti hbi (by omega) hnb
  · intro hcheq hlast nt fb hnt hfb
    exact adjacentNext_nextTestament hti hbi (by omega) (by omega) hnt hfb
  · intro hcheq hlastBook hlastT
    exact adjacentNext_atEnd hti hbi (by omega) (by omega) (by omega)
  · exact fun h1 => adjacentPrev_inChapter hti h1
  · intro hcheq hbipos pb hpb
    exact adjacentPrev_prevBook hti hbi (by omega) hbipos hpb
  · intro hcheq hbi0 htipos pt lb hpt hlb
    exact adjacentPrev_prevTestament hti (hbi0 ▸ hbi) (by omega) htipos hpt hlb
  · intro hcheq hbi0 hti0
    exact adjacentPrev_atStart (hti0 ▸ hti) (hbi0 ▸ hbi) (by omega)

/-- Witness for C5: the first chapter of the example corpus steps to the
second chapter of the same book. -/
theorem adjacentChapter_cases_witness :
    findAdjacentChapter exampleCorpus "A" "Genesis" 1 Dir.next =
      Except.ok (some ⟨"A", "Genesis", 2⟩) :=
  (adjacentChapter_cases exampleCorpus "A" "Genesis" 1 0 0
    ⟨"A", [⟨"Genesis", [⟨1, [⟨1, "g one"⟩]⟩, ⟨2, [⟨1, "g two"⟩]⟩]⟩]⟩
    ⟨"Genesis", [⟨1, [⟨1, "g one"⟩]⟩, ⟨2, [⟨1, "g two"⟩]⟩]⟩
    (by rfl) (by rfl) (by decide) (by decide)).1 (by decide)

/-! ### C6: round-trip next-then-prev -/

theorem map_nodup_get?_ne {f : α → β} {l : List α} (hnd : (l.map f).Nodup)
    {i j : Nat} {a b : α} (hij : i ≠ j) (ha : l.get? i = some a) (hb : l.get? j = some b) :
    f a ≠ f b := by
  intro hfab
  have hia : i < l.length := (List.get?_eq_some.mp ha).choose
  have h1 : (l.map f).get? i = some (f a) := by
    rw [List.get?_map, ha]
    rfl
  have h2 : (l.map f).get? j = some (f b) := by
    rw [List.get?_map, hb]
    rfl
  have : i = j := by
    refine List.get?_inj (by simpa using hia) hnd ?_
    rw [h1, h2, hfab]
  exact hij this

theorem findWith_self_of_nodup {f : α → String} {l : List α} (hnd : (l.map f).Nodup)
    {i : Nat} {a : α} (ha : l.get? i = some a) :
    findWith (fun x => f x == f a) l = some (i, a) := by
  refine findWith_intro ha (by simp) ?_
  intro j b hj hb
  have hne : f b ≠ f a := map_nodup_get?_ne hnd (by omega) hb ha
  exact beq_false_of_ne hne

/-- C6: for every valid coordinate (in a corpus with non-empty book lists
and duplicate-free testament/book names), whenever `next` yields a
coordinate, `prev` from that coordinate yields the original one; the only
exception is the corpus boundary, where `next` yields none. -/
theorem adjacentChapter_roundTrip (corpus : List Testament) (testament book : String)
    (ch : Int) (ti bi : Nat) (tst : Testament) (bk : Book)
    (hti : findWith (fun x => x.name == testament) corpus = some (ti, tst))
    (hbi : findWith (fun x => x.name == book) tst.books = some (bi, bk))
    (hch1 : 1 ≤ ch) (hch2 : ch ≤ (bk.chapters.length : Int))
    (hbooks : ∀ T ∈ corpus, T.books ≠ [])
    (hndT : (corpus.map Testament.name).Nodup)
    (hndB : (tst.books.map Book.name).Nodup)
    (c' : Coord)
    (hnext : findAdjacentChapter corpus testament book ch Dir.next = Except.ok (some c')) :
    findAdjacentChapter corpus c'.testament c'.book c'.chapter Dir.prev =
      Except.ok (some ⟨testament, book, ch⟩) := by
  have hbiLt : bi < tst.books.length := findWith_bound hbi
  have htiLt : ti < corpus.length := findWith_bound hti
  have hbkget : tst.books.get? bi = some bk := (findWith_some hbi).1
  have htget : corpus.get? ti = some tst := (findWith_some hti).1
  have hbkname : bk.name = book := by
    have := (findWith_some hbi).2.1
    simpa using this
  have htname : tst.name = testament := by
    have := (findWith_some hti).2.1
    simpa using this
  by_cases h1 : ch < (bk.chapters.length : Int)
  · rw [adjacentNext_inBook hti hbi h1] at hnext
    simp only [Except.ok.injEq, Option.some.injEq] at hnext
    subst hnext
    dsimp only
    rw [adjacentPrev_inChapter hti (by omega)]
    have harith : ch + 1 - 1 = ch := by omega
    rw [harith]
  · by_cases h2 : bi + 1 < tst.books.length
    · obtain ⟨nb, hnb⟩ : ∃ nb, tst.books.get? (bi + 1) = some nb :=
        ⟨_, List.get?_eq_get h2⟩
      rw [adjacentNext_nextBook hti hbi h1 hnb] at hnext
      simp only [Except.ok.injEq, Option.some.injEq] at hnext
      subst hnext
      dsimp only
      have hfw : findWith (fun x => x.name == nb.name) tst.books = some (bi + 1, nb) :=
        findWith_self_of_nodup hndB hnb
      have hpb : tst.books.get? (bi + 1 - 1) = some bk := by
        simpa using hbkget
      rw [adjacentPrev_prevBook hti hfw (by omega) (by omega) hpb]
      have hchl : (bk.chapters.length : Int) = ch := by omega
      rw [hbkname, hchl]
    · by_cases h3 : ti + 1 < corpus.length
      · obtain ⟨nt, hnt⟩ : ∃ nt, corpus.get? (ti + 1) = some nt :=
          ⟨_, List.get?_eq_get h3⟩
        have hntmem : nt ∈ corpus := by
          obtain ⟨hlt, hget⟩ := List.get?_eq_some.mp hnt
          exact hget ▸ List.get_mem corpus (ti + 1) hlt
        obtain ⟨fb, hfb⟩ : ∃ fb, nt.books.get? 0 = some fb :=
          ⟨_, List.get?_eq_get (by have := List.length_pos.mpr (hbooks nt hntmem); omega)⟩
        rw [adjacentNext_nextTestament hti hbi h1 h2 hnt hfb] at hnext
        simp only [Except.ok.injEq, Option.some.injEq] at hnext
        subst hnext
        dsimp only
        have hfwT : findWith (fun x => x.name == nt.name) corpus = some (ti + 1, nt) :=
          findWith_self_of_nodup hndT hnt
        have hfwB : findWith (fun x => x.name == fb.name) nt.books = some (0, fb) := by
          refine findWith_intro hfb (by simp) ?_
          intro j b hj hb
          omega
        have hpt : corpus.get? (ti + 1 - 1) = some tst := by
          simpa using htget
        have hlb : tst.books.get? (tst.books.length - 1) = some bk := by
          have hlast : tst.books.length - 1 = bi := by omega
          rw [hlast]
          exact hbkget
        rw [adjacentPrev_prevTestament hfwT hfwB (by omega) (by omega) hpt hlb]
        have hchl : (bk.chapters.length : Int) = ch := by omega
        rw [htname, hbkname, hchl]
      · rw [adjacentNext_atEnd hti hbi h1 h2 h3] at hnext
        simp at hnext

/-- Witness for C6 at the example corpus's cross-testament boundary:
next of ("A","Genesis",2) is ("B","Exodus",1), whose prev is
("A","Genesis",2). -/
theorem adjacentChapter_roundTrip_witness :
    findAdjacentChapter exampleCorpus "B" "Exodus" 1 Dir.prev =
      Except.ok (some ⟨"A", "Genesis", 2⟩) :=
  adjacentChapter_roundTrip exampleCorpus "A" "Genesis" 2 0 0
    ⟨"A", [⟨"Genesis", [⟨1, [⟨1, "g one"⟩]⟩, ⟨2, [⟨1, "g two"⟩]⟩]⟩]⟩
    ⟨"Genesis", [⟨1, [⟨1, "g one"⟩]⟩, ⟨2, [⟨1, "g two"⟩]⟩]⟩
    (by rfl) (by rfl) (by decide) (by decide) (by decide) (by decide) (by decide)
    ⟨"B", "Exodus", 1⟩ (by rfl)

/-! ### C7: the active-tab invariant over reachable states -/

theorem sessionInv_handleVerseSelection {corpus : List Testament} {now : Int}
    {testament book : String} {chapter : Int} {hv : Option Int} {s : AppState}
    (hfresh : verseTabId testament book chapter now ∉ s.tabs.map Tab.id)
    (hInv : SessionInv s) : SessionInv (handleVerseSelection corpus now testament book chapter hv s) := by
  unfold handleVerseSelection
  by_cases hv0 : (lookupVerses corpus testament book chapter).isEmpty = true
  · simpa [hv0] using hInv
  · simp only [hv0, Bool.false_eq_true, if_false]
    obtain ⟨hact, hnd, t0, ht0, hperm⟩ := hInv
    refine ⟨?_, ?_, ?_⟩
    · simp [mkVerseTab]
    · rw [List.map_append, List.map_map]
      have hmapid :
          s.tabs.map (Tab.id ∘ fun tab => { tab with isCollapsed := false }) =
            s.tabs.map Tab.id :=
        List.map_congr_left (fun a _ => rfl)
      rw [hmapid, List.nodup_append]
      refine ⟨hnd, List.nodup_singleton _, ?_⟩
      intro x hx hxs
      simp at hxs
      subst hxs
      exact hfresh hx
    · refine ⟨{ t0 with isCollapsed := false }, ?_, hperm⟩
      exact List.mem_append_left _ (List.mem_map_of_mem _ ht0)

theorem sessionInv_handleSearchCore {corpus : List Testament} {now : Int} {mode : SearchMode}
    {query : String} {s : AppState}
    (hfresh : searchTabId now ∉ s.tabs.map Tab.id) (hInv : SessionInv s) :
    SessionInv (handleSearchCore corpus now mode query s) := by
  unfold handleSearchCore
  by_cases hq : query = ""
  · simp only [if_pos hq]
    exact hInv
  · simp only [if_neg hq]
    obtain ⟨hact, hnd, t0, ht0, hperm⟩ := hInv
    refine ⟨?_, ?_, ?_⟩
    · simp
    · rw [List.map_append, List.nodup_append]
      refine ⟨hnd, List.nodup_singleton _, ?_⟩
      intro x hx hxs
      simp at hxs
      subst hxs
      exact hfresh hx
    · exact ⟨t0, List.mem_append_left _ ht0, hperm⟩

theorem sessionInv_navStep {corpus : List Testament} {testament book : String} {chapter : Int}
    {dir : Dir} {s : AppState} (hInv : SessionInv s) :
    SessionInv (navStep corpus testament book chapter dir s) := by
  obtain ⟨hpair, hact⟩ := navStep_preserves_ids_types_active corpus testament book chapter dir s
  have hid : (navStep corpus testament book chapter dir s).tabs.map Tab.id =
      s.tabs.map Tab.id := by
    have h2 := congrArg (List.map Prod.fst) hpair
    simpa [List.map_map, Function.comp] using h2
  have htype : (navStep corpus testament book chapter dir s).tabs.map Tab.type =
      s.tabs.map Tab.type := by
    have h2 := congrArg (List.map Prod.snd) hpair
    simpa [List.map_map, Function.comp] using h2
  obtain ⟨h1, h2, t0, ht0, hperm⟩ := hInv
  refine ⟨?_, ?_, ?_⟩
  · rw [hact, hid]
    exact h1
  · rw [hid]
    exact h2
  · have hmem : t0.type ∈ (navStep corpus testament book chapter dir s).tabs.map Tab.type := by
      rw [htype]
      exact List.mem_map_of_mem _ ht0
    obtain ⟨t1, ht1, hty⟩ := List.mem_map.mp hmem
    refine ⟨t1, ht1, ?_⟩
    rw [hty]
    exact hperm

theorem sessionInv_handleTabClick {tabId : String} {s : AppState}
    (hmem : tabId ∈ s.tabs.map Tab.id) (hInv : SessionInv s) : SessionInv (handleTabClick tabId s) := by
  unfold handleTabClick
  by_cases h : (s.activeTabId == tabId) = true
  · simp only [if_pos h]
    exact hInv
  · simp only [if_neg h]
    exact ⟨hmem, hInv.2.1, hInv.2.2⟩

theorem perm_tab_survives {s : AppState} (hInv : SessionInv s) {tabId : String} {t : Tab}
    (hfind : s.tabs.find? (fun x => x.id == tabId) = some t)
    (hperm : (t.type == TabType.navigation || t.type == TabType.searchInput) = false) :
    ∃ t0 ∈ s.tabs.filter (fun tab => !(tab.id == tabId)),
      t0.type = TabType.navigation ∨ t0.type = TabType.searchInput := by
  obtain ⟨hact, hnd, t0, ht0, hp0⟩ := hInv
  have htmem : t ∈ s.tabs := List.mem_of_find?_eq_some hfind
  have htid : t.id = tabId := by simpa using List.find?_some hfind
  have hpne : t.type ≠ TabType.navigation ∧ t.type ≠ TabType.searchInput := by
    constructor <;> intro h0 <;> rw [h0] at hperm <;> simp at hperm
  have ht0ne : t0.id ≠ tabId := by
    intro hid0
    have ht0t : t0 = t := List.inj_on_of_nodup_map hnd ht0 htmem (by rw [hid0, htid])
    subst ht0t
    cases hp0 with
    | inl h0 => exact hpne.1 h0
    | inr h0 => exact hpne.2 h0
  refine ⟨t0, ?_, hp0⟩
  rw [List.mem_filter]
  exact ⟨ht0, by simpa using ht0ne⟩

theorem sessionInv_handleTabClose {tabId : String} {s : AppState} (hInv : SessionInv s) :
    SessionInv (handleTabClose tabId s) := by
  obtain ⟨hact, hnd, t0, ht0, hperm⟩ := hInv
  unfold handleTabClose
  cases hfind : s.tabs.find? (fun t => t.id == tabId) with
  | none =>
    dsimp only
    have hnone := List.find?_eq_none.mp hfind
    have hfilter : s.tabs.filter (fun tab => !(tab.id == tabId)) = s.tabs := by
      rw [List.filter_eq_self]
      intro a ha
      simpa using hnone a ha
    rw [hfilter]
    refine ⟨?_, hnd, t0, ht0, hperm⟩
    by_cases ha : (s.activeTabId == tabId) = true
    · rw [if_pos ha]
      have hne : s.tabs ≠ [] := by
        intro h0
        rw [h0] at hact
        simp at hact
      rw [List.getLast?_eq_getLast _ hne]
      exact List.mem_map_of_mem _ (List.getLast_mem hne)
    · rw [if_neg ha]
      exact hact
  | some t =>
    dsimp only
    by_cases hp : (t.type == TabType.navigation || t.type == TabType.searchInput) = true
    · rw [if_pos hp]
      exact ⟨hact, hnd, t0, ht0, hperm⟩
    · rw [if_neg hp]
      obtain ⟨t1, ht1, hp1⟩ :=
        perm_tab_survives ⟨hact, hnd, t0, ht0, hperm⟩ hfind (by simpa using hp)
      have hfilne : s.tabs.filter (fun tab => !(tab.id == tabId)) ≠ [] := by
        intro h0
        rw [h0] at ht1
        simp at ht1
      have hndfil : ((s.tabs.filter (fun tab => !(tab.id == tabId))).map Tab.id).Nodup :=
        List.Nodup.sublist ((List.filter_sublist s.tabs).map Tab.id) hnd
      refine ⟨?_, hndfil, t1, ht1, hp1⟩
      by_cases ha : (s.activeTabId == tabId) = true
      · rw [if_pos ha]
        rw [List.getLast?_eq_getLast _ hfilne]
        exact List.mem_map_of_mem _ (List.getLast_mem hfilne)
      · rw [if_neg ha]
        obtain ⟨a, hamem, haid⟩ := List.mem_map.mp hact
        refine List.mem_map.mpr ⟨a, ?_, haid⟩
        rw [List.mem_filter]
        refine ⟨hamem, ?_⟩
        have hane : a.id ≠ tabId := by
          intro h0
          have : s.activeTabId = tabId := by rw [← haid, h0]
          simp [this] at ha
        simpa using hane

theorem sessionInv_handleHistoryItemClick {corpus : List Testament} {now : Int} {entry : Tab}
    {s : AppState}
    (hfreshV : verseTabId (entry.content.testament.getD "") (entry.content.book.getD "")
      (entry.content.chapter.getD 0) now ∉ s.tabs.map Tab.id)
    (hfreshS : searchTabId now ∉ s.tabs.map Tab.id)
    (hInv : SessionInv s) : SessionInv (handleHistoryItemClick corpus now entry s) := by
  unfold handleHistoryItemClick
  cases htype : entry.type with
  | verse => exact sessionInv_handleVerseSelection hfreshV hInv
  | searchResults =>
    dsimp only
    cases ho : entry.searchOptions with
    | some m => exact sessionInv_handleSearchCore hfreshS hInv
    | none => exact sessionInv_handleSearchCore hfreshS hInv
  | navigation => exact hInv
  | searchInput => exact hInv

theorem sessionInv_step {corpus : List Testament} {s s' : AppState}
    (h : Step corpus s s') (hInv : SessionInv s) : SessionInv s' := by
  cases h with
  | verseSel now testament book chapter hv s hfresh =>
    exact sessionInv_handleVerseSelection hfresh hInv
  | search now query s hfresh => exact sessionInv_handleSearchCore hfresh hInv
  | nav testament book chapter dir s => exact sessionInv_navStep hInv
  | close tabId s => exact sessionInv_handleTabClose hInv
  | click tabId s hmem => exact sessionInv_handleTabClick hmem hInv
  | scroll tabId pos s => exact hInv
  | setQuery query s => exact hInv
  | setMode mode s => exact hInv
  | histClick now entry s hfV hfS => exact sessionInv_handleHistoryItemClick hfV hfS hInv

theorem sessionInv_reachable {corpus : List Testament} {s : AppState}
    (h : Reachable corpus s) : SessionInv s := by
  induction h with
  | init lastTab sp0 s h hnd =>
    cases hc : corpus with
    | nil =>
      rw [hc] at h
      simp [initState] at h
    | cons ft rest =>
      rw [hc] at h
      cases hb : ft.books with
      | nil => simp [initState, hb] at h
      | cons fb restb =>
        cases hch : fb.chapters with
        | nil => simp [initState, hb, hch] at h
        | cons fc restc =>
          unfold initState at h
          dsimp only at h
          rw [hb] at h
          dsimp only at h
          rw [hch] at h
          dsimp only at h
          simp only [Except.ok.injEq] at h
          subst h
          refine ⟨?_, hnd, navigationTabDef, ?_, Or.inl rfl⟩
          · simp
          · simp
  | step s s' hreach hstep ih => exact sessionInv_step hstep ih

theorem close_active_fallback {s : AppState} (hInv : SessionInv s) {tabId : String} {t : Tab}
    (hfind : s.tabs.find? (fun x => x.id == tabId) = some t)
    (hperm : (t.type == TabType.navigation || t.type == TabType.searchInput) = false)
    (hactive : s.activeTabId = tabId) :
    (handleTabClose tabId s).activeTabId ≠ tabId ∧
    ((s.tabs.filter (fun tab => !(tab.id == tabId))).getLast?).map Tab.id =
      some (handleTabClose tabId s).activeTabId := by
  obtain ⟨t1, ht1, hp1⟩ := perm_tab_survives hInv hfind hperm
  have hfilne : s.tabs.filter (fun tab => !(tab.id == tabId)) ≠ [] := by
    intro h0
    rw [h0] at ht1
    simp at ht1
  have hbeq : (s.activeTabId == tabId) = true := by simp [hactive]
  have hclose : (handleTabClose tabId s).activeTabId =
      (( s.tabs.filter (fun tab => !(tab.id == tabId))).getLast hfilne).id := by
    unfold handleTabClose
    rw [hfind]
    dsimp only
    rw [if_neg (by simp [hperm]), if_pos hbeq, List.getLast?_eq_getLast _ hfilne]
  constructor
  · rw [hclose]
    have hmem := List.getLast_mem hfilne
    rw [List.mem_filter] at hmem
    simpa using hmem.2
  · rw [hclose, List.getLast?_eq_getLast _ hfilne]
    rfl

/-- C7: for every session state reachable from initialization by engine
operations, `activeTabId` names a tab present in `tabs`; and closing the
currently active closable tab makes the active id differ from the closed id
and equal the id of the tab now at the end of the remaining ordered list. -/
theorem reachable_active_valid_and_close_fallback (corpus : List Testament) (s : AppState)
    (h : Reachable corpus s) :
    s.activeTabId ∈ s.tabs.map Tab.id ∧
    ∀ tabId t, s.tabs.find? (fun x => x.id == tabId) = some t →
      (t.type == TabType.navigation || t.type == TabType.searchInput) = false →
      s.activeTabId = tabId →
      (handleTabClose tabId s).activeTabId ≠ tabId ∧
      ((s.tabs.filter (fun tab => !(tab.id == tabId))).getLast?).map Tab.id =
        some (handleTabClose tabId s).activeTabId := by
  have hInv := sessionInv_reachable h
  exact ⟨hInv.1, fun tabId t hfind hperm hactive =>
    close_active_fallback hInv hfind hperm hactive⟩

/-- Witness for C7: on the freshly initialized state for `corpusT`, the
active id names a present tab, and closing the active (closable) initial
verse tab moves activation off the closed id. -/
theorem reachable_active_valid_and_close_fallback_witness :
    sInitT.activeTabId ∈ sInitT.tabs.map Tab.id ∧
    (handleTabClose initTabT.id sInitT).activeTabId ≠ initTabT.id :=
  have hreach : Reachable corpusT sInitT :=
    Reachable.init none [] sInitT (by rfl) (by decide)
  have h := reachable_active_valid_and_close_fallback corpusT sInitT hreach
  ⟨h.1, (h.2 initTabT.id initTabT (by decide) (by decide) (by rfl)).1⟩
